import Mathlib

/-!
Shallow embedding of the contact-manager program in `src/main.py`
(a command-line assistant bot storing names, phones and birthdays,
with a 7-day upcoming-birthday query and file persistence).

Python exceptions are modelled with `Except PyErr`; `datetime` values
are modelled by `PyDateTime` (proleptic Gregorian calendar fields plus
seconds since midnight, mirroring `datetime`'s date-then-time ordering,
`toordinal`, `weekday`, `replace` and `timedelta.days` semantics).
-/

/-- Python exceptions raised by the program: `KeyError` (no argument in
the source), `ValueError msg` and `IndexError msg`. -/
inductive PyErr where
  | keyError : PyErr
  | valueError : String → PyErr
  | indexError : String → PyErr
deriving DecidableEq, Repr

deriving instance DecidableEq for Except

/-- Model of a Python `datetime`: calendar fields plus the time of day
in seconds since midnight (the program never uses finer granularity in
a way the claims depend on). `Birthday` values produced by
`strptime(value, "%d.%m.%Y")` have `tsec = 0`. -/
structure PyDateTime where
  year : Nat
  month : Nat
  day : Nat
  tsec : Nat
deriving DecidableEq, Repr

/-- Leap-year test of the proleptic Gregorian calendar, as used by
Python's `datetime` module. -/
def isLeap (y : Nat) : Bool :=
  y % 4 == 0 && (y % 100 != 0 || y % 400 == 0)

/-- Number of days in a month (0 for an out-of-range month, which makes
every day count invalid, as `datetime` would have rejected it earlier). -/
def daysInMonth (y m : Nat) : Nat :=
  match m with
  | 1 => 31
  | 2 => if isLeap y then 29 else 28
  | 3 => 31
  | 4 => 30
  | 5 => 31
  | 6 => 30
  | 7 => 31
  | 8 => 31
  | 9 => 30
  | 10 => 31
  | 11 => 30
  | 12 => 31
  | _ => 0

/-- Cumulative day count of the months before month `m` in a non-leap
year (CPython `_days_before_month` without the leap adjustment). -/
def monthsCum (m : Nat) : Nat :=
  match m with
  | 1 => 0
  | 2 => 31
  | 3 => 59
  | 4 => 90
  | 5 => 120
  | 6 => 151
  | 7 => 181
  | 8 => 212
  | 9 => 243
  | 10 => 273
  | 11 => 304
  | 12 => 334
  | _ => 0

/-- Days in year `y` before the first of month `m` (with leap adjustment),
as in CPython's `_days_before_month`. -/
def daysBeforeMonth (y m : Nat) : Nat :=
  monthsCum m + (if 2 < m ∧ isLeap y = true then 1 else 0)

/-- Days before January 1 of year `y`, as in CPython's `_days_before_year`. -/
def daysBeforeYear (y : Nat) : Nat :=
  365 * (y - 1) + (y - 1) / 4 - (y - 1) / 100 + (y - 1) / 400

/-- Python `date.toordinal()`: day number with 0001-01-01 as day 1. -/
def toOrdinal (d : PyDateTime) : Nat :=
  daysBeforeYear d.year + daysBeforeMonth d.year d.month + d.day

/-- Seconds since the epoch 0001-01-01 00:00:00; Python `datetime`
comparison and subtraction are exactly comparison and subtraction of
this quantity. -/
def totalSecs (d : PyDateTime) : Int :=
  (toOrdinal d : Int) * 86400 + (d.tsec : Int)

/-- Python `(a - b).days` for datetimes: `timedelta` normalises so that
`.days` is the floor of the difference measured in days. -/
def tdDays (a b : PyDateTime) : Int :=
  Int.fdiv (totalSecs a - totalSecs b) 86400

/-- Python `datetime.weekday()`: Monday = 0, ..., Sunday = 6
(0001-01-01 was a Monday). -/
def pyWeekday (d : PyDateTime) : Nat :=
  (toOrdinal d + 6) % 7

/-- Zero-pad a number to two digits, as `strftime` does for `%d` and `%m`. -/
def pad2 (n : Nat) : String :=
  if n < 10 then "0" ++ toString n else toString n

/-- Python `strftime("%d.%m.%Y")` on a datetime (years of interest are
four-digit, where `%Y` prints the plain number). -/
def fmtDate (d : PyDateTime) : String :=
  pad2 d.day ++ "." ++ pad2 d.month ++ "." ++ toString d.year

/-- Python `datetime(year, month, day, ...)` field validation: the
checks performed by the `datetime` constructor, hence also by
`datetime.replace`. -/
def pyMkDT (y m d t : Nat) : Except PyErr PyDateTime :=
  if y < 1 || 9999 < y then
    Except.error (PyErr.valueError "year is out of range")
  else if m < 1 || 12 < m then
    Except.error (PyErr.valueError "month must be in 1..12")
  else if d < 1 || daysInMonth y m < d then
    Except.error (PyErr.valueError "day is out of range for month")
  else
    Except.ok ⟨y, m, d, t⟩

/-- Python `b.replace(year = y)`: revalidates the resulting date. -/
def pyReplaceYear (b : PyDateTime) (y : Nat) : Except PyErr PyDateTime :=
  pyMkDT y b.month b.day b.tsec

/-- Python `b.replace(day = d)`: revalidates the resulting date. -/
def pyReplaceDay (b : PyDateTime) (d : Nat) : Except PyErr PyDateTime :=
  pyMkDT b.year b.month d b.tsec

/-- A contact record (`Record` in `main.py`): the stored name string,
the ordered list of phone strings, and the optional birthday value. -/
structure PyRecord where
  name : String
  phones : List String
  birthday : Option PyDateTime
deriving DecidableEq, Repr

/-- The Address Book (`AddressBook(UserDict)`): an insertion-ordered
mapping from name string to record, as a Python dict is. -/
abbrev Book := List (String × PyRecord)

/-- An element of the list returned by `get_upcoming_birthdays`:
the dict `{"name": ..., "congratulation_date": ...}`. -/
structure BEntry where
  name : String
  congratulation_date : String
deriving DecidableEq, Repr

/-- Lines 156-160 of `main.py`: `birthday_this_year = birthday.replace(year=today.year)`,
then if that is `< today` (datetime comparison), `birthday.replace(year=today.year + 1)`. -/
def computeBTY (today b : PyDateTime) : Except PyErr PyDateTime :=
  match pyReplaceYear b today.year with
  | Except.error e => Except.error e
  | Except.ok bty =>
      if totalSecs bty < totalSecs today then pyReplaceYear b (today.year + 1)
      else Except.ok bty

/-- The loop `while birthday_this_year.weekday() > 4:
birthday_this_year = birthday_this_year.replace(day=birthday_this_year.day + 1)`.
Fuel-indexed; on any date the loop exits within two iterations because the
weekday cycles mod 7, so fuel 7 never runs out on reachable inputs. -/
def shiftLoop : Nat → PyDateTime → Except PyErr PyDateTime
  | 0, d =>
      if 4 < pyWeekday d then Except.error (PyErr.valueError "loop fuel exhausted")
      else Except.ok d
  | n + 1, d =>
      if 4 < pyWeekday d then
        match pyReplaceDay d (d.day + 1) with
        | Except.error e => Except.error e
        | Except.ok d1 => shiftLoop n d1
      else Except.ok d

/-- The weekend adjustment applied to an in-window occurrence. -/
def shiftWeekday (d : PyDateTime) : Except PyErr PyDateTime :=
  shiftLoop 7 d

/-- The body of `get_upcoming_birthdays` for one record: skip records
without a birthday; compute this-year/next-year occurrence; keep it when
`0 <= days_until_birthday <= 7`; weekend-shift; emit name and formatted
congratulation date. -/
def upcomingEntry (today : PyDateTime) (r : PyRecord) : Except PyErr (Option BEntry) :=
  match r.birthday with
  | none => Except.ok none
  | some b =>
      match computeBTY today b with
      | Except.error e => Except.error e
      | Except.ok bty =>
          if 0 ≤ tdDays bty today ∧ tdDays bty today ≤ 7 then
            match shiftWeekday bty with
            | Except.error e => Except.error e
            | Except.ok s => Except.ok (some ⟨r.name, fmtDate s⟩)
          else Except.ok none

/-- Embedding of `AddressBook.get_upcoming_birthdays`, iterating the records in dict
(insertion) order; an exception raised while processing any record
propagates out of the whole method. -/
def getUpcoming (today : PyDateTime) : Book → Except PyErr (List BEntry)
  | [] => Except.ok []
  | (_, r) :: rest =>
      match upcomingEntry today r with
      | Except.error e => Except.error e
      | Except.ok e =>
          match getUpcoming today rest with
          | Except.error e2 => Except.error e2
          | Except.ok l =>
              Except.ok (match e with
                         | some x => x :: l
                         | none => l)

/-- Python `str.isalpha()`: true iff the string is non-empty and every
character is alphabetic. -/
def pyIsAlpha (s : String) : Bool :=
  !s.isEmpty && s.data.all Char.isAlpha

/-- Embedding of `Name.__init__`: stores the value as given, then raises `ValueError`
unless `value.isalpha()`; the value is stored unchanged (no lowercasing
happens in the class — `parse_input` lowercases tokens at the CLI layer,
which is outside this component). -/
def mkName (s : String) : Except PyErr String :=
  if pyIsAlpha s then Except.ok s
  else Except.error (PyErr.valueError "Name should contain only alphabetic characters.")

/-- Numeric value of an all-digit string. -/
def natOf (s : String) : Nat :=
  s.toNat?.getD 0

/-- Embedding of `Birthday.__init__`: `datetime.strptime(value, "%d.%m.%Y")`, any
parse or range failure re-raised as
`ValueError('Invalid date format. Use DD.MM.YYYY')`.  CPython's strptime
matches `%d` as one or two digits valued 1..31, `%m` as one or two digits
valued 1..12, `%Y` as exactly four digits, separated by literal dots, and
then the `datetime` constructor revalidates the day against the month. -/
def mkBirthday (s : String) : Except PyErr PyDateTime :=
  match s.splitOn "." with
  | [ds, ms, ys] =>
      if ds.data.all Char.isDigit && 1 ≤ ds.length && ds.length ≤ 2
          && 1 ≤ natOf ds && natOf ds ≤ 31
          && ms.data.all Char.isDigit && 1 ≤ ms.length && ms.length ≤ 2
          && 1 ≤ natOf ms && natOf ms ≤ 12
          && ys.data.all Char.isDigit && ys.length == 4 then
        match pyMkDT (natOf ys) (natOf ms) (natOf ds) 0 with
        | Except.ok dt => Except.ok dt
        | Except.error _ =>
            Except.error (PyErr.valueError "Invalid date format. Use DD.MM.YYYY")
      else Except.error (PyErr.valueError "Invalid date format. Use DD.MM.YYYY")
  | _ => Except.error (PyErr.valueError "Invalid date format. Use DD.MM.YYYY")

/-- Embedding of `Record.remove_phone`: `for p in self.phones: if p.value == phone:
self.phones.remove(p)`.  Removing the element at the iterator's current
index shifts the tail left, so the element immediately after a removed
occurrence is never examined (Python's skip-on-mutate iteration). -/
def removePhoneList (phone : String) : List String → List String
  | [] => []
  | x :: xs =>
      if x = phone then
        match xs with
        | [] => []
        | y :: rest => y :: removePhoneList phone rest
      else x :: removePhoneList phone xs

/-- Wrapper for `Record.remove_phone` at the record level. -/
def removePhone (r : PyRecord) (phone : String) : PyRecord :=
  { r with phones := removePhoneList phone r.phones }

/-- Embedding of `Record.edit_phone`: `for phone in self.phones: if phone.value ==
old_phone: phone.value = new_phone` — no `break`, so every element equal
to `old_phone` is overwritten. -/
def editPhoneList (oldP newP : String) (l : List String) : List String :=
  l.map fun x => if x = oldP then newP else x

/-- Wrapper for `Record.edit_phone` at the record level. -/
def editPhone (r : PyRecord) (oldP newP : String) : PyRecord :=
  { r with phones := editPhoneList oldP newP r.phones }

/-- Python dict assignment `self.data[k] = v`: an existing key keeps its
position and gets the new value; a new key is appended at the end. -/
def dictSet : Book → String → PyRecord → Book
  | [], k, r => [(k, r)]
  | (k1, r1) :: rest, k, r =>
      if k1 = k then (k, r) :: rest else (k1, r1) :: dictSet rest k r

/-- Embedding of `AddressBook.add_record`: `self.data[record.name.value] = record`. -/
def addRecord (book : Book) (r : PyRecord) : Book :=
  dictSet book r.name r

/-- Python `dict.pop(k)` with no default: removes and returns the value,
raising `KeyError` when the key is absent; order of the remaining
entries is preserved. -/
def dictPop : Book → String → Except PyErr (PyRecord × Book)
  | [], _ => Except.error PyErr.keyError
  | (k1, r1) :: rest, k =>
      if k1 = k then Except.ok (r1, rest)
      else
        match dictPop rest k with
        | Except.error e => Except.error e
        | Except.ok (v, rest1) => Except.ok (v, (k1, r1) :: rest1)

/-- Embedding of `AddressBook.delete`: `return self.data.pop(name)`. -/
def bookDelete (book : Book) (name : String) : Except PyErr (PyRecord × Book) :=
  dictPop book name

/-- Embedding of `AddressBook.find`: `return self.data.get(name)`. -/
def bookFind : Book → String → Option PyRecord
  | [], _ => none
  | (k1, r1) :: rest, k => if k1 = k then some r1 else bookFind rest k

/-- The Address Book key invariant: every key equals the stored name of
the record it maps to. -/
def bookInv (book : Book) : Prop :=
  ∀ p ∈ book, p.1 = p.2.name

/-- The `input_error` decorator's `except` clauses: `KeyError` becomes
"Contact not found.", `ValueError` is echoed, and an `IndexError` is
echoed only when its message is one of the three whitelisted arity
messages — any other `IndexError` falls off the end of `inner` and the
call returns Python `None` (here `none`). -/
def handleErr : PyErr → Option String
  | PyErr.keyError => some "Contact not found."
  | PyErr.valueError m => some m
  | PyErr.indexError m =>
      if m = "Please enter a name." then some m
      else if m = "Please enter a name and phone number." then some m
      else if m = "Please enter name, old phone, and new phone." then some m
      else none

/-- The undecorated `add_birthday` handler: arity check raising
`IndexError("Please enter a name and birthday in the format DD.MM.YYYY.")`,
then `Name`/`Birthday` validation inside a `try` that returns the
`ValueError` text, then `find`, then
`record.add_birthday(birthday.value.strftime("%d.%m.%Y"))` which
re-parses the formatted date and stores it on the found record. -/
def add_birthday (args : List String) (book : Book) : Except PyErr (String × Book) :=
  match args with
  | [nameS, bdS] =>
      match mkName nameS with
      | Except.error (PyErr.valueError m) => Except.ok (m, book)
      | Except.error e => Except.error e
      | Except.ok nm =>
          match mkBirthday bdS with
          | Except.error (PyErr.valueError m) => Except.ok (m, book)
          | Except.error e => Except.error e
          | Except.ok bd =>
              match bookFind book nm with
              | none => Except.ok ("Contact not found.", book)
              | some r =>
                  match mkBirthday (fmtDate bd) with
                  | Except.error e => Except.error e
                  | Except.ok bd2 =>
                      Except.ok ("Birthday added.",
                        dictSet book nm { r with birthday := some bd2 })
  | _ => Except.error (PyErr.indexError
      "Please enter a name and birthday in the format DD.MM.YYYY.")

/-- The decorated `add-birthday` command as the read loop calls it: the
handler's result string, or the decorator's conversion of a raised
exception (possibly Python `None`); the book is unchanged when an
exception escaped the handler body. -/
def addBirthdayCmd (args : List String) (book : Book) : Option String × Book :=
  match add_birthday args book with
  | Except.ok (m, b) => (some m, b)
  | Except.error e => (handleErr e, book)

/-- Serialization of a string into the persisted byte stream:
length-prefixed character codes.  `pickle.dump`/`pickle.load` are
modelled as a concrete structure-preserving serialization of the
Address Book object graph (names, phone lists in order, birthdays);
the pickle wire format itself is implementation-defined. -/
def encString (s : String) : List Nat :=
  s.length :: s.data.map Char.toNat

/-- Deserialization of a length-prefixed string. -/
def decString (l : List Nat) : Option (String × List Nat) :=
  match l with
  | [] => none
  | n :: rest =>
      if n ≤ rest.length then
        some (String.mk ((rest.take n).map Char.ofNat), rest.drop n)
      else none

/-- Serialization of the phone list, element by element. -/
def encStrList : List String → List Nat
  | [] => []
  | s :: rest => encString s ++ encStrList rest

/-- Deserialization of `n` consecutive strings. -/
def decStrList : Nat → List Nat → Option (List String × List Nat)
  | 0, rest => some ([], rest)
  | n + 1, rest =>
      match decString rest with
      | none => none
      | some (s, r1) =>
          match decStrList n r1 with
          | none => none
          | some (l, r2) => some (s :: l, r2)

/-- Serialization of the optional birthday field. -/
def encOptDT : Option PyDateTime → List Nat
  | none => [0]
  | some d => [1, d.year, d.month, d.day, d.tsec]

/-- Deserialization of the optional birthday field. -/
def decOptDT : List Nat → Option (Option PyDateTime × List Nat)
  | 0 :: rest => some (none, rest)
  | 1 :: y :: m :: d :: t :: rest => some (some ⟨y, m, d, t⟩, rest)
  | _ => none

/-- Serialization of one record: name, length-prefixed phone list,
optional birthday. -/
def encRecord (r : PyRecord) : List Nat :=
  encString r.name ++ (r.phones.length :: encStrList r.phones) ++ encOptDT r.birthday

/-- Deserialization of one record. -/
def decRecord (l : List Nat) : Option (PyRecord × List Nat) :=
  match decString l with
  | none => none
  | some (nm, r1) =>
      match r1 with
      | [] => none
      | n :: r2 =>
          match decStrList n r2 with
          | none => none
          | some (ph, r3) =>
              match decOptDT r3 with
              | none => none
              | some (bd, r4) => some (⟨nm, ph, bd⟩, r4)

/-- Serialization of the Address Book entries in order. -/
def encEntryList : Book → List Nat
  | [] => []
  | (k, r) :: rest => encString k ++ encRecord r ++ encEntryList rest

/-- Deserialization of `n` consecutive entries. -/
def decEntryList : Nat → List Nat → Option (Book × List Nat)
  | 0, rest => some ([], rest)
  | n + 1, rest =>
      match decString rest with
      | none => none
      | some (k, r1) =>
          match decRecord r1 with
          | none => none
          | some (rec, r2) =>
              match decEntryList n r2 with
              | none => none
              | some (b, r3) => some ((k, rec) :: b, r3)

/-- Serialization of the whole Address Book. -/
def encBook (book : Book) : List Nat :=
  book.length :: encEntryList book

/-- Deserialization of the whole Address Book. -/
def decBook (l : List Nat) : Option (Book × List Nat) :=
  match l with
  | [] => none
  | n :: rest => decEntryList n rest

/-- Embedding of `save_data`: serialize the entire Address Book to the file contents,
overwriting whatever was there. -/
def save_data (book : Book) : List Nat :=
  encBook book

/-- Embedding of `load_data`: deserialize the file contents; a missing file
(`FileNotFoundError`, here `none`) yields a fresh empty Address Book;
any other failure propagates as a fatal error. -/
def load_data : Option (List Nat) → Except PyErr Book
  | none => Except.ok []
  | some bytes =>
      match decBook bytes with
      | some (b, []) => Except.ok b
      | _ => Except.error (PyErr.valueError "unpickling error")

/-! Helper lemmas shared by the claim theorems. -/

/-- Floor division of `86400 * q + r` by 86400 recovers `q` when
`0 ≤ r < 86400` (the normalisation `timedelta` performs). -/
theorem fdiv86400 (q r : Int) (h0 : 0 ≤ r) (h1 : r < 86400) :
    Int.fdiv (86400 * q + r) 86400 = q := by
  rw [Int.fdiv_eq_ediv _ (by norm_num)]
  omega

/-- The `datetime` constructor checks succeed on an in-range date. -/
theorem pyMkDT_ok (y m d t : Nat) (hy1 : 1 ≤ y) (hy2 : y ≤ 9999) (hm1 : 1 ≤ m)
    (hm2 : m ≤ 12) (hd1 : 1 ≤ d) (hd2 : d ≤ daysInMonth y m) :
    pyMkDT y m d t = Except.ok ⟨y, m, d, t⟩ := by
  unfold pyMkDT
  rw [if_neg (by simp only [Bool.or_eq_true, decide_eq_true_eq]; omega),
    if_neg (by simp only [Bool.or_eq_true, decide_eq_true_eq]; omega),
    if_neg (by simp only [Bool.or_eq_true, decide_eq_true_eq]; omega)]

/-- Moving a calendar date one year forward advances its ordinal by 365
or 366 days — never less than 365. -/
theorem isLeap_iff (w : Nat) : (isLeap w = true) ↔
    (w % 4 = 0 ∧ (w % 100 ≠ 0 ∨ w % 400 = 0)) := by
  unfold isLeap
  simp only [Bool.and_eq_true, beq_iff_eq, Bool.or_eq_true, bne_iff_ne]

/-- One Gregorian year adds 365 days plus one leap day. -/
theorem dby_step (z : Nat) :
    daysBeforeYear (z + 2) =
      daysBeforeYear (z + 1) + 365 + (if isLeap (z + 1) = true then 1 else 0) := by
  have hs1 : z + 2 - 1 = z + 1 := by omega
  have hs2 : z + 1 - 1 = z := by omega
  unfold daysBeforeYear
  rw [hs1, hs2, Nat.succ_div z 4, Nat.succ_div z 100, Nat.succ_div z 400]
  split_ifs <;> (try simp only [isLeap_iff] at *) <;> omega

/-- Moving a calendar date one year forward advances its ordinal by 365
or 366 days — never less than 365. -/
theorem ord_next_year (y m d : Nat) (hy : 1 ≤ y) :
    toOrdinal ⟨y, m, d, 0⟩ + 365 ≤ toOrdinal ⟨y + 1, m, d, 0⟩ := by
  show (daysBeforeYear y + daysBeforeMonth y m + d) + 365 ≤
    daysBeforeYear (y + 1) + daysBeforeMonth (y + 1) m + d
  obtain ⟨z, rfl⟩ : ∃ z, y = z + 1 := ⟨y - 1, by omega⟩
  have hA := dby_step z
  have hz2 : z + 1 + 1 = z + 2 := by omega
  rw [hz2, hA]
  unfold daysBeforeMonth
  have hadj : (if 2 < m ∧ isLeap (z + 1) = true then (1 : Nat) else 0) ≤
      (if isLeap (z + 1) = true then (1 : Nat) else 0) := by
    split_ifs with h1 h2
    · omega
    · exact absurd h1.2 h2
    · omega
    · omega
  omega

/-- Python `timedelta.days` between a midnight datetime and a reference
datetime whose date lies `n` days earlier: exactly `n` when the
reference time is midnight, `n - 1` otherwise (flooring). -/
theorem tdDays_of_ord (a b : PyDateTime) (n : Nat)
    (h : toOrdinal a = toOrdinal b + n) (ha : a.tsec = 0) (hb : b.tsec < 86400) :
    tdDays a b = if b.tsec = 0 then (n : Int) else (n : Int) - 1 := by
  unfold tdDays totalSecs
  rw [Int.fdiv_eq_ediv _ (by norm_num), h, ha]
  by_cases hz : b.tsec = 0
  · rw [if_pos hz, hz]
    push_cast
    omega
  · rw [if_neg hz]
    push_cast
    omega

/-- An entry produced by a record of the book appears in the successful
output of `getUpcoming`. -/
theorem mem_getUpcoming (today : PyDateTime) (k : String) (r : PyRecord)
    (e : BEntry) :
    ∀ (book : Book) (l : List BEntry),
      getUpcoming today book = Except.ok l → (k, r) ∈ book →
      upcomingEntry today r = Except.ok (some e) → e ∈ l := by
  intro book
  induction book with
  | nil => intro l _ hmem; simp at hmem
  | cons p rest ih =>
      obtain ⟨k1, r1⟩ := p
      intro l hok hmem he
      simp only [getUpcoming] at hok
      rcases h1 : upcomingEntry today r1 with e1 | e1
      · rw [h1] at hok; cases hok
      · rw [h1] at hok
        rcases h2 : getUpcoming today rest with l2 | l2
        · rw [h2] at hok; cases hok
        · rw [h2] at hok
          injection hok with hok
          rcases List.mem_cons.mp hmem with heq | hmem2
          · injection heq with hk hr
            subst hr
            rw [he] at h1
            injection h1 with h1
            subst h1
            exact hok ▸ List.mem_cons_self e l2
          · have hrec := ih l2 h2 hmem2 he
            cases e1 with
            | none => exact hok ▸ hrec
            | some x => exact hok ▸ List.mem_cons_of_mem x hrec

/-- One non-matching step of the `remove_phone` scan. -/
theorem removePhoneList_cons_ne (p y : String) (zs : List String) (hy : ¬y = p) :
    removePhoneList p (y :: zs) = y :: removePhoneList p zs := by
  cases zs with
  | nil => rw [removePhoneList.eq_2, if_neg hy]
  | cons z rest => rw [removePhoneList.eq_3, if_neg hy]

/-- Calling `remove_phone` on an absent phone touches nothing. -/
theorem removePhoneList_not_mem (p : String) :
    ∀ l : List String, p ∉ l → removePhoneList p l = l := by
  intro l
  induction l with
  | nil => intro _; rfl
  | cons x xs ih =>
      intro h
      have hx : ¬x = p := fun hxp => h (hxp ▸ List.mem_cons_self x xs)
      have hxs : p ∉ xs := fun hm => h (List.mem_cons_of_mem x hm)
      rw [removePhoneList_cons_ne p x xs hx, ih hxs]

/-- Removing a found phone skips the element directly after it and
continues scanning the rest of the list. -/
theorem removePhoneList_found (p : String) :
    ∀ (l1 : List String) (x : String) (l2 : List String), p ∉ l1 →
      removePhoneList p (l1 ++ p :: x :: l2) = l1 ++ x :: removePhoneList p l2 := by
  intro l1
  induction l1 with
  | nil => intro x l2 _; rw [List.nil_append, removePhoneList.eq_3, if_pos rfl]; rfl
  | cons a as ih =>
      intro x l2 h
      have ha : ¬a = p := fun hap => h (hap ▸ List.mem_cons_self a as)
      have has : p ∉ as := fun hm => h (List.mem_cons_of_mem a hm)
      rw [List.cons_append, removePhoneList_cons_ne p a _ ha, ih x l2 has,
        List.cons_append]

/-- Removing a found phone that is the last element just drops it. -/
theorem removePhoneList_found_last (p : String) :
    ∀ l1 : List String, p ∉ l1 → removePhoneList p (l1 ++ [p]) = l1 := by
  intro l1
  induction l1 with
  | nil => intro _; rw [List.nil_append, removePhoneList.eq_2, if_pos rfl]
  | cons a as ih =>
      intro h
      have ha : ¬a = p := fun hap => h (hap ▸ List.mem_cons_self a as)
      have has : p ∉ as := fun hm => h (List.mem_cons_of_mem a hm)
      rw [List.cons_append, removePhoneList_cons_ne p a _ ha, ih has]

/-- Calling `edit_phone` on an absent old phone touches nothing. -/
theorem editPhoneList_not_mem (oldP newP : String) :
    ∀ l : List String, oldP ∉ l → editPhoneList oldP newP l = l := by
  intro l
  induction l with
  | nil => intro _; rfl
  | cons x xs ih =>
      intro h
      have hx : ¬x = oldP := fun hxp => h (hxp ▸ List.mem_cons_self x xs)
      have hxs : oldP ∉ xs := fun hm => h (List.mem_cons_of_mem x hm)
      show (if x = oldP then newP else x) :: editPhoneList oldP newP xs = x :: xs
      rw [if_neg hx, ih hxs]

/-- After `edit_phone old new` with `old ≠ new`, no phone equals `old`. -/
theorem editPhoneList_no_old (oldP newP : String) (hne : oldP ≠ newP) :
    ∀ l : List String, oldP ∉ editPhoneList oldP newP l := by
  intro l
  induction l with
  | nil => simp [editPhoneList]
  | cons x xs ih =>
      simp only [editPhoneList, List.map_cons, List.mem_cons] at *
      rintro (h | h)
      · by_cases hx : x = oldP
        · rw [if_pos hx] at h; exact hne h
        · rw [if_neg hx] at h; exact hx h.symm
      · exact ih h

/-- Applying `edit_phone old new` converts every occurrence of `old` into an
occurrence of `new` (counted). -/
theorem editPhoneList_count (oldP newP : String) (hne : oldP ≠ newP) :
    ∀ l : List String,
      (editPhoneList oldP newP l).count newP = l.count newP + l.count oldP := by
  intro l
  induction l with
  | nil => rfl
  | cons x xs ih =>
      show ((if x = oldP then newP else x) :: editPhoneList oldP newP xs).count newP =
        (x :: xs).count newP + (x :: xs).count oldP
      rw [List.count_cons, List.count_cons, List.count_cons, ih]
      by_cases hx : x = oldP
      · subst hx
        rw [if_pos rfl]
        simp only [beq_iff_eq]
        rw [if_neg hne]
        simp only [if_true]
        omega
      · rw [if_neg hx]
        simp only [beq_iff_eq]
        rw [if_neg hx]
        omega

/-- Inserting a record under its own name keeps the key invariant. -/
theorem bookInv_dictSet (r : PyRecord) :
    ∀ book : Book, bookInv book → bookInv (dictSet book r.name r) := by
  intro book
  induction book with
  | nil =>
      intro _ p hp
      simp only [dictSet, List.mem_singleton] at hp
      subst hp; rfl
  | cons q rest ih =>
      obtain ⟨k1, r1⟩ := q
      intro h p hp
      by_cases hk : k1 = r.name
      · simp only [dictSet, if_pos hk, List.mem_cons] at hp
        rcases hp with hp | hp
        · subst hp; rfl
        · exact h p (List.mem_cons_of_mem _ hp)
      · simp only [dictSet, if_neg hk, List.mem_cons] at hp
        rcases hp with hp | hp
        · subst hp; exact h (k1, r1) (List.mem_cons_self _ _)
        · exact ih (fun q hq => h q (List.mem_cons_of_mem _ hq)) p hp

/-- Python `dict.pop` keeps the key invariant on the remaining book. -/
theorem bookInv_dictPop (k : String) :
    ∀ book : Book, bookInv book →
      ∀ v b2, dictPop book k = Except.ok (v, b2) → bookInv b2 := by
  intro book
  induction book with
  | nil => intro _ v b2 h; cases h
  | cons q rest ih =>
      obtain ⟨k1, r1⟩ := q
      intro h v b2 hpop
      simp only [dictPop] at hpop
      by_cases hk : k1 = k
      · rw [if_pos hk] at hpop
        injection hpop with hpop
        injection hpop with _ hb2
        subst hb2
        exact fun p hp => h p (List.mem_cons_of_mem _ hp)
      · rw [if_neg hk] at hpop
        rcases h2 : dictPop rest k with e | vr
        · rw [h2] at hpop; cases hpop
        · obtain ⟨v1, rest1⟩ := vr
          rw [h2] at hpop
          injection hpop with hpop
          injection hpop with _ hb2
          subst hb2
          intro p hp
          rcases List.mem_cons.mp hp with hp | hp
          · subst hp; exact h (k1, r1) (List.mem_cons_self _ _)
          · exact ih (fun q hq => h q (List.mem_cons_of_mem _ hq)) v1 rest1 h2 p hp

/-- Under the key invariant, `find` returns a record named by the key. -/
theorem bookFind_name (k : String) :
    ∀ book : Book, bookInv book →
      ∀ r0, bookFind book k = some r0 → r0.name = k := by
  intro book
  induction book with
  | nil => intro _ r0 h; cases h
  | cons q rest ih =>
      obtain ⟨k1, r1⟩ := q
      intro h r0 hf
      simp only [bookFind] at hf
      by_cases hk : k1 = k
      · rw [if_pos hk] at hf
        injection hf with hf
        subst hf
        exact (h (k1, _) (List.mem_cons_self _ _)).symm.trans hk
      · rw [if_neg hk] at hf
        exact ih (fun q hq => h q (List.mem_cons_of_mem _ hq)) r0 hf

/-- Decoding an encoded string consumes exactly the encoding. -/
theorem decString_enc (s : String) (r : List Nat) :
    decString (encString s ++ r) = some (s, r) := by
  obtain ⟨data⟩ := s
  have hlen : (String.mk data).length = data.length := rfl
  have hdata : (String.mk data).data = data := rfl
  simp only [encString, hlen, hdata, List.cons_append, decString]
  have h1 : (data.map Char.toNat ++ r).take data.length = data.map Char.toNat := by
    rw [← List.length_map data Char.toNat]
    exact List.take_left _ _
  have h2 : (data.map Char.toNat ++ r).drop data.length = r := by
    rw [← List.length_map data Char.toNat]
    exact List.drop_left _ _
  rw [if_pos (by rw [List.length_append, List.length_map]; omega), h1, h2]
  rw [List.map_map]
  have h3 : ∀ d : List Char, d.map (Char.ofNat ∘ Char.toNat) = d := by
    intro d
    induction d with
    | nil => rfl
    | cons c cs ih =>
        rw [List.map_cons, ih, Function.comp_apply, Char.ofNat_toNat]
  rw [h3]

/-- Decoding an encoded string list consumes exactly the encoding. -/
theorem decStrList_enc :
    ∀ (l : List String) (r : List Nat),
      decStrList l.length (encStrList l ++ r) = some (l, r) := by
  intro l
  induction l with
  | nil => intro r; rfl
  | cons s rest ih =>
      intro r
      show decStrList (rest.length + 1) ((encString s ++ encStrList rest) ++ r) = _
      rw [List.append_assoc]
      simp only [decStrList, decString_enc s (encStrList rest ++ r), ih r]

/-- Decoding an encoded optional birthday consumes exactly the encoding. -/
theorem decOptDT_enc (o : Option PyDateTime) (r : List Nat) :
    decOptDT (encOptDT o ++ r) = some (o, r) := by
  cases o with
  | none => rfl
  | some d => rfl

/-- Decoding an encoded record consumes exactly the encoding. -/
theorem decRecord_enc (r0 : PyRecord) (r : List Nat) :
    decRecord (encRecord r0 ++ r) = some (r0, r) := by
  obtain ⟨nm, ph, bd⟩ := r0
  simp only [encRecord, List.append_assoc, List.cons_append, decRecord,
    decString_enc, decStrList_enc, decOptDT_enc]

/-- Decoding an encoded entry list consumes exactly the encoding. -/
theorem decEntryList_enc :
    ∀ (b : Book) (r : List Nat),
      decEntryList b.length (encEntryList b ++ r) = some (b, r) := by
  intro b
  induction b with
  | nil => intro r; rfl
  | cons e rest ih =>
      obtain ⟨k, r0⟩ := e
      intro r
      show decEntryList (rest.length + 1)
        ((encString k ++ encRecord r0 ++ encEntryList rest) ++ r) = _
      rw [List.append_assoc, List.append_assoc]
      simp only [decEntryList, decString_enc, decRecord_enc, ih r]

/-! Claim theorems. -/

/-- C1 counterexample: at 2024-03-04 12:00:00, a record whose birthday is
March 4 is NOT reported by `get_upcoming_birthdays` — the midnight
occurrence compares `<` the current datetime, rolls to next year, and
falls out of the window. -/
theorem c1_counterexample :
    getUpcoming ⟨2024, 3, 4, 43200⟩
        [("bob", ⟨"bob", [], some ⟨2000, 3, 4, 0⟩⟩)] = Except.ok [] := by
  decide

/-- C1 (amended): a record whose birthday falls on today's date is
included only when the current time is exactly midnight; at any later
time of day the occurrence is rolled to next year and the record
contributes nothing to the output (or the whole query raises, for a
Feb 29 birthday whose next-year roll is invalid). -/
theorem c1_today_only_at_midnight (today b : PyDateTime) (r : PyRecord)
    (hy1 : 1 ≤ today.year) (hy2 : today.year ≤ 9999)
    (hm1 : 1 ≤ today.month) (hm2 : today.month ≤ 12)
    (hd1 : 1 ≤ today.day) (hd2 : today.day ≤ daysInMonth today.year today.month)
    (ht : today.tsec < 86400) (hb : r.birthday = some b)
    (hbm : b.month = today.month) (hbd : b.day = today.day) (hb0 : b.tsec = 0) :
    (today.tsec = 0 →
      ∀ s, shiftWeekday ⟨today.year, today.month, today.day, 0⟩ = Except.ok s →
        ∀ (k : String) (book : Book) (l : List BEntry),
          (k, r) ∈ book → getUpcoming today book = Except.ok l →
          BEntry.mk r.name (fmtDate s) ∈ l) ∧
    (today.tsec ≠ 0 → ∀ e, upcomingEntry today r ≠ Except.ok (some e)) := by
  have hrep : pyReplaceYear b today.year =
      Except.ok ⟨today.year, today.month, today.day, 0⟩ := by
    unfold pyReplaceYear
    rw [hbm, hbd, hb0]
    exact pyMkDT_ok _ _ _ _ hy1 hy2 hm1 hm2 hd1 hd2
  have hordeq : toOrdinal ⟨today.year, today.month, today.day, 0⟩ =
      toOrdinal today := rfl
  constructor
  · intro hz s hs k book l hmem hok
    have heqts : totalSecs ⟨today.year, today.month, today.day, 0⟩ =
        totalSecs today := by
      unfold totalSecs
      rw [hordeq, hz]
    have hlt : ¬(totalSecs ⟨today.year, today.month, today.day, 0⟩ <
        totalSecs today) := by
      rw [heqts]
      exact lt_irrefl _
    have hcomp : computeBTY today b =
        Except.ok ⟨today.year, today.month, today.day, 0⟩ := by
      simp only [computeBTY, hrep]
      rw [if_neg hlt]
    have hdays := tdDays_of_ord ⟨today.year, today.month, today.day, 0⟩ today 0
      (by rw [hordeq]; omega) rfl ht
    rw [if_pos hz] at hdays
    have he : upcomingEntry today r = Except.ok (some ⟨r.name, fmtDate s⟩) := by
      simp only [upcomingEntry, hb, hcomp]
      rw [if_pos (by rw [hdays]; constructor <;> norm_num), hs]
    exact mem_getUpcoming today k r _ book l hok hmem he
  · intro hz e
    have hlt : totalSecs ⟨today.year, today.month, today.day, 0⟩ <
        totalSecs today := by
      unfold totalSecs
      rw [hordeq]
      dsimp only
      have : 0 < today.tsec := Nat.pos_of_ne_zero hz
      omega
    have hcomp : computeBTY today b = pyReplaceYear b (today.year + 1) := by
      simp only [computeBTY, hrep]
      rw [if_pos hlt]
    intro hcontra
    rcases hrep2 : pyReplaceYear b (today.year + 1) with e2 | bty2
    · have hue : upcomingEntry today r = Except.error e2 := by
        simp only [upcomingEntry, hb, hcomp, hrep2]
      rw [hue] at hcontra
      cases hcontra
    · have hfacts : bty2 = ⟨today.year + 1, today.month, today.day, 0⟩ := by
        unfold pyReplaceYear pyMkDT at hrep2
        rw [hbm, hbd, hb0] at hrep2
        split_ifs at hrep2
        injection hrep2 with h
        exact h.symm
      subst hfacts
      have hord : toOrdinal today + 365 ≤
          toOrdinal (⟨today.year + 1, today.month, today.day, 0⟩ : PyDateTime) := by
        rw [← hordeq]
        exact ord_next_year today.year today.month today.day hy1
      have hdays : 8 ≤ tdDays ⟨today.year + 1, today.month, today.day, 0⟩ today := by
        unfold tdDays totalSecs
        rw [Int.fdiv_eq_ediv _ (by norm_num)]
        dsimp only
        omega
      have hue : upcomingEntry today r = Except.ok none := by
        simp only [upcomingEntry, hb, hcomp, hrep2]
        rw [if_neg (by omega)]
      rw [hue] at hcontra
      injection hcontra with h
      cases h

/-- C1 witness: at exactly midnight of 2024-03-04 (a Monday), the same
record IS reported, via the amended theorem at concrete inputs. -/
theorem c1_witness :
    getUpcoming ⟨2024, 3, 4, 0⟩ [("bob", ⟨"bob", [], some ⟨2000, 3, 4, 0⟩⟩)] =
      Except.ok [⟨"bob", "04.03.2024"⟩] ∧
    BEntry.mk "bob" "04.03.2024" ∈ [BEntry.mk "bob" "04.03.2024"] :=
  ⟨by decide,
    (c1_today_only_at_midnight ⟨2024, 3, 4, 0⟩ ⟨2000, 3, 4, 0⟩
        ⟨"bob", [], some ⟨2000, 3, 4, 0⟩⟩
        (by decide) (by decide) (by decide) (by decide) (by decide) (by decide)
        (by decide) rfl rfl rfl rfl).1
      rfl ⟨2024, 3, 4, 0⟩ (by decide) "bob"
      [("bob", ⟨"bob", [], some ⟨2000, 3, 4, 0⟩⟩)] [⟨"bob", "04.03.2024"⟩]
      (by decide) (by decide)⟩

/-- C2 counterexample: at 2024-03-04 12:00:00, a record whose birthday
occurrence is 2024-03-12 — exactly 8 days out — IS reported by
`get_upcoming_birthdays`, because the `timedelta` floors to 7 days. -/
theorem c2_counterexample :
    getUpcoming ⟨2024, 3, 4, 43200⟩
        [("bob", ⟨"bob", [], some ⟨2000, 3, 12, 0⟩⟩)] =
      Except.ok [⟨"bob", "12.03.2024"⟩] := by
  decide

/-- C2 (amended): a birthday occurrence exactly 7 days from now is
always inside the window (day count 6 or 7 after flooring), while one
exactly 8 days out is excluded only when the current time is exactly
midnight — at any later time of day its day count floors to 7 and it is
included as well. -/
theorem c2_window_boundary (today b bty : PyDateTime) (r : PyRecord)
    (ht : today.tsec < 86400) (hb : r.birthday = some b)
    (hbty : computeBTY today b = Except.ok bty) (h0 : bty.tsec = 0) :
    (toOrdinal bty = toOrdinal today + 7 →
      ∀ s, shiftWeekday bty = Except.ok s →
        ∀ (k : String) (book : Book) (l : List BEntry),
          (k, r) ∈ book → getUpcoming today book = Except.ok l →
          BEntry.mk r.name (fmtDate s) ∈ l) ∧
    (toOrdinal bty = toOrdinal today + 8 →
      (upcomingEntry today r = Except.ok none ↔ today.tsec = 0)) := by
  constructor
  · intro h7 s hs k book l hmem hok
    have hdays := tdDays_of_ord bty today 7 h7 h0 ht
    have hwin : 0 ≤ tdDays bty today ∧ tdDays bty today ≤ 7 := by
      rw [hdays]
      split_ifs <;> constructor <;> norm_num
    have he : upcomingEntry today r = Except.ok (some ⟨r.name, fmtDate s⟩) := by
      simp only [upcomingEntry, hb, hbty]
      rw [if_pos hwin, hs]
    exact mem_getUpcoming today k r _ book l hok hmem he
  · intro h8
    have hdays := tdDays_of_ord bty today 8 h8 h0 ht
    by_cases hz : today.tsec = 0
    · rw [if_pos hz] at hdays
      have hwin : ¬(0 ≤ tdDays bty today ∧ tdDays bty today ≤ 7) := by
        rw [hdays]
        norm_num
      simp only [upcomingEntry, hb, hbty]
      rw [if_neg hwin]
      simp [hz]
    · rw [if_neg hz] at hdays
      have hwin : 0 ≤ tdDays bty today ∧ tdDays bty today ≤ 7 := by
        rw [hdays]
        constructor <;> norm_num
      simp only [upcomingEntry, hb, hbty]
      rw [if_pos hwin]
      rcases hsw : shiftWeekday bty with e | s <;> simp [hsw, hz]

/-- C2 witness: 2024-03-11 is exactly 7 days after 2024-03-04 and a
Monday; the amended theorem at these concrete inputs places the record
in the output. -/
theorem c2_witness :
    getUpcoming ⟨2024, 3, 4, 43200⟩
        [("bob", ⟨"bob", [], some ⟨2000, 3, 11, 0⟩⟩)] =
      Except.ok [⟨"bob", "11.03.2024"⟩] ∧
    BEntry.mk "bob" "11.03.2024" ∈ [BEntry.mk "bob" "11.03.2024"] :=
  ⟨by decide,
    (c2_window_boundary ⟨2024, 3, 4, 43200⟩ ⟨2000, 3, 11, 0⟩ ⟨2024, 3, 11, 0⟩
        ⟨"bob", [], some ⟨2000, 3, 11, 0⟩⟩ (by decide) rfl (by decide) rfl).1
      (by decide) ⟨2024, 3, 11, 0⟩ (by decide) "bob"
      [("bob", ⟨"bob", [], some ⟨2000, 3, 11, 0⟩⟩)] [⟨"bob", "11.03.2024"⟩]
      (by decide) (by decide)⟩

/-- C3: a weekend birthday occurrence on the last day of a month makes
the weekend shift call `replace(day=day+1)` with an out-of-range day:
`get_upcoming_birthdays` raises `ValueError` instead of reporting the
first weekday of the next month.  2025-08-31 is a Sunday; with "now" at
2025-08-25 00:00:00 a birthday of 31.08.2000 is 6 days out, in the
window, and the shift crashes. -/
theorem c3_month_end_shift_raises :
    getUpcoming ⟨2025, 8, 25, 0⟩
        [("bob", ⟨"bob", [], some ⟨2000, 8, 31, 0⟩⟩)] =
      Except.error (PyErr.valueError "day is out of range for month") := by
  decide

/-- C4: the claim says every handler converts a wrong argument count into
a specific instructional string; the code instead raises
`IndexError("Please enter a name and birthday in the format DD.MM.YYYY.")`
from `add_birthday`, a message the `input_error` decorator does not
whitelist, so the decorated `add-birthday` command returns Python `None`
on a wrong argument count. -/
theorem c4_add_birthday_arity_none :
    add_birthday ["john"] [] = Except.error (PyErr.indexError
      "Please enter a name and birthday in the format DD.MM.YYYY.") ∧
    addBirthdayCmd ["john"] [] = (none, []) :=
  ⟨rfl, by decide⟩

/-- C5 counterexample: on the phone list `[a, b, a]`, `remove_phone a`
removes both occurrences (result `[b]`), not only the first one
(which would give `[b, a]` as the claim states). -/
theorem c5_counterexample :
    removePhone ⟨"bob", ["1111111111", "2222222222", "1111111111"], none⟩
        "1111111111" =
      ⟨"bob", ["2222222222"], none⟩ ∧
    (⟨"bob", ["2222222222"], none⟩ : PyRecord) ≠
      ⟨"bob", ["2222222222", "1111111111"], none⟩ :=
  ⟨rfl, by decide⟩

/-- C5 (amended): `remove_phone p` is a strict no-op when `p` is absent;
when `p` is found, the occurrence is removed and the element immediately
after it is skipped (so an adjacent duplicate survives), after which the
scan continues — later non-adjacent occurrences of `p` are removed too. -/
theorem c5_remove_phone_semantics (p : String) :
    (∀ r : PyRecord, p ∉ r.phones → removePhone r p = r) ∧
    (∀ (l1 : List String) (x : String) (l2 : List String), p ∉ l1 →
      removePhoneList p (l1 ++ p :: x :: l2) = l1 ++ x :: removePhoneList p l2) ∧
    (∀ l1 : List String, p ∉ l1 → removePhoneList p (l1 ++ [p]) = l1) := by
  refine ⟨?_, removePhoneList_found p, removePhoneList_found_last p⟩
  intro r h
  show ({ r with phones := removePhoneList p r.phones } : PyRecord) = r
  rw [removePhoneList_not_mem p r.phones h]

/-- C5 witness: concrete instance of the amended removal equation. -/
theorem c5_witness :
    ("1111111111" : String) ∉ (["2222222222"] : List String) ∧
    removePhoneList "1111111111"
        (["2222222222"] ++ "1111111111" :: "3333333333" :: []) =
      ["2222222222"] ++ "3333333333" :: removePhoneList "1111111111" [] :=
  ⟨by decide, (c5_remove_phone_semantics "1111111111").2.1 ["2222222222"]
    "3333333333" [] (by decide)⟩

/-- C6 counterexample: on the phone list `[a, b, a]`, `edit_phone a c`
rewrites both occurrences (result `[c, b, c]`), not only the first one
(which would give `[c, b, a]` as the claim states). -/
theorem c6_counterexample :
    editPhone ⟨"bob", ["1111111111", "2222222222", "1111111111"], none⟩
        "1111111111" "3333333333" =
      ⟨"bob", ["3333333333", "2222222222", "3333333333"], none⟩ ∧
    (⟨"bob", ["3333333333", "2222222222", "3333333333"], none⟩ : PyRecord) ≠
      ⟨"bob", ["3333333333", "2222222222", "1111111111"], none⟩ :=
  ⟨rfl, by decide⟩

/-- C6 (amended): `edit_phone old new` is a no-op when `old` is absent,
and otherwise replaces every occurrence of `old` by `new`: afterwards no
phone equals `old`, and the occurrences of `new` count the former
occurrences of both values. -/
theorem c6_edit_phone_semantics (oldP newP : String) :
    (∀ r : PyRecord, oldP ∉ r.phones → editPhone r oldP newP = r) ∧
    (oldP ≠ newP → ∀ l : List String, oldP ∉ editPhoneList oldP newP l) ∧
    (oldP ≠ newP → ∀ l : List String,
      (editPhoneList oldP newP l).count newP = l.count newP + l.count oldP) := by
  refine ⟨?_, editPhoneList_no_old oldP newP, editPhoneList_count oldP newP⟩
  intro r h
  show ({ r with phones := editPhoneList oldP newP r.phones } : PyRecord) = r
  rw [editPhoneList_not_mem oldP newP r.phones h]

/-- C6 witness: concrete instance of the amended edit property. -/
theorem c6_witness :
    ("1111111111" : String) ≠ "3333333333" ∧
    ("1111111111" : String) ∉
      editPhoneList "1111111111" "3333333333" ["1111111111", "2222222222"] :=
  ⟨by decide, (c6_edit_phone_semantics "1111111111" "3333333333").2.1 (by decide)
    ["1111111111", "2222222222"]⟩

/-- C7 counterexample: the accepted input `"A"` is stored as `"A"`, not
as its lowercase normalization `"a"`. -/
theorem c7_counterexample :
    mkName "A" = Except.ok "A" ∧ mkName "A" ≠ Except.ok "a" :=
  ⟨by decide, by decide⟩

/-- C7 (amended): name validation stores the accepted input string
verbatim; no lowercasing happens in the validator (the CLI tokenizer,
outside this component, lowercases arguments before they arrive). -/
theorem c7_name_stored_verbatim (s v : String) (h : mkName s = Except.ok v) :
    v = s := by
  by_cases hp : pyIsAlpha s = true
  · unfold mkName at h
    rw [if_pos hp] at h
    injection h with h
    exact h.symm
  · unfold mkName at h
    rw [if_neg hp] at h
    cases h

/-- C7 witness: the verbatim-storage theorem at a concrete accepted input. -/
theorem c7_witness :
    mkName "alice" = Except.ok "alice" ∧ ("alice" : String) = "alice" :=
  ⟨by decide, c7_name_stored_verbatim "alice" "alice" (by decide)⟩

/-- C8 counterexample: the empty string contains only alphabetic
characters (vacuously) yet name validation rejects it, because Python's
`isalpha` is false on the empty string. -/
theorem c8_counterexample :
    ("" : String).data.all Char.isAlpha = true ∧
    mkName "" = Except.error (PyErr.valueError
      "Name should contain only alphabetic characters.") :=
  ⟨by decide, by decide⟩

/-- C8 (amended): name validation accepts exactly the non-empty strings
all of whose characters are alphabetic, and every rejection is the
`ValueError` with the fixed validation message (in particular any string
containing a digit, space or symbol is rejected with it). -/
theorem c8_name_validation (s : String) :
    (mkName s = Except.ok s ↔
      (s.isEmpty = false ∧ s.data.all Char.isAlpha = true)) ∧
    (mkName s = Except.ok s ∨ mkName s = Except.error (PyErr.valueError
      "Name should contain only alphabetic characters.")) := by
  by_cases hp : pyIsAlpha s = true
  · have hok : mkName s = Except.ok s := by
      unfold mkName
      rw [if_pos hp]
    have hsplit := hp
    unfold pyIsAlpha at hsplit
    rw [Bool.and_eq_true, Bool.not_eq_true'] at hsplit
    exact ⟨⟨fun _ => hsplit, fun _ => hok⟩, Or.inl hok⟩
  · have herr : mkName s = Except.error (PyErr.valueError
        "Name should contain only alphabetic characters.") := by
      unfold mkName
      rw [if_neg hp]
    constructor
    · constructor
      · intro hok
        rw [herr] at hok
        cases hok
      · intro hcond
        exfalso
        apply hp
        unfold pyIsAlpha
        rw [Bool.and_eq_true, Bool.not_eq_true']
        exact hcond
    · exact Or.inr herr

/-- C9: every Address Book key equals the name of the record it maps to,
and the invariant is preserved by `add_record` (which keys the entry by
the record's own name) and by `delete`; `find` (and the read-only
`get_upcoming_birthdays`) never modify the mapping, and under the
invariant `find k` can only return a record named `k`. -/
theorem c9_key_invariant (book : Book) (r : PyRecord) (k : String)
    (h : bookInv book) :
    bookInv (addRecord book r) ∧
    (∀ v b2, bookDelete book k = Except.ok (v, b2) → bookInv b2) ∧
    (∀ r0, bookFind book k = some r0 → r0.name = k) :=
  ⟨bookInv_dictSet r book h, bookInv_dictPop k book h, bookFind_name k book h⟩

/-- C9 witness: the invariant theorem applied to a concrete one-entry book. -/
theorem c9_witness :
    bookInv [("john", (⟨"john", ["1234567890"], none⟩ : PyRecord))] ∧
    bookInv (addRecord [("john", ⟨"john", ["1234567890"], none⟩)]
      ⟨"mary", [], none⟩) := by
  have hinv : bookInv [("john", (⟨"john", ["1234567890"], none⟩ : PyRecord))] := by
    intro p hp
    simp only [List.mem_singleton] at hp
    subst hp
    rfl
  exact ⟨hinv, (c9_key_invariant _ ⟨"mary", [], none⟩ "x" hinv).1⟩

/-- C10: saving an Address Book and loading the saved file yields a
structurally equal book — same names, same phone lists in the same
order, same birthdays. -/
theorem c10_roundtrip (book : Book) :
    load_data (some (save_data book)) = Except.ok book := by
  have h : decBook (encBook book) = some (book, []) := by
    show decEntryList book.length (encEntryList book) = some (book, [])
    have h2 := decEntryList_enc book []
    rwa [List.append_nil] at h2
  simp only [save_data, load_data, h]

